import Mathlib

/-!
Shallow embedding of `src/windowmanager/hyprland/hyprland_utils/ipc.py`
(the `HyprlandIPC` client).

The Python code talks to two Unix sockets.  The embedding replaces the
operating system by explicit parameters:

* the command socket peer is a function `peer : String → PeerReply`
  mapping the request that was written to the socket to what the peer
  does before closing the connection (either it closes after sending
  some bytes, or the transport fails with some exception message);
* the filesystem / `Path.resolve` used by `from_env` is an `FsModel`;
* the event socket is a scripted list of `recv` results (chunks of
  bytes); an empty chunk models the zero-length read of a peer close.

Strings model decoded byte sequences at the character level (all the
relevant wire data is ASCII, where Python's byte-wise `partition`,
`strip`, `startswith` and UTF-8 decoding coincide with the character
level operations used here).  Each operation that writes requests also
returns the ordered list of requests it sent, so that claims about what
is (and is not) sent on the wire are provable.
-/

namespace Hyprland

/-- HyprlandIPCError from the source: the single umbrella error type;
only its message is observable. -/
structure HyprlandIPCError where
  message : String
deriving DecidableEq

/-- Event dataclass from the source: a name and an associated data string. -/
structure Event where
  name : String
  data : String
deriving DecidableEq

/-- HyprlandIPC client state: the two socket paths set by `__init__`.
The class has no other attributes. -/
structure HyprlandIPC where
  socket_path : String
  event_socket_path : String
deriving DecidableEq

/-- PeerReply models what the command-socket peer does for one
request/response cycle: either the transport raises an exception with
some message (connect/send/recv failure), or the peer sends `bytes`
and closes the connection. -/
inductive PeerReply where
  | closeWith (bytes : String)
  | transportError (msg : String)

/-- Peer is the command-socket peer: each `send` opens a fresh
connection, so the peer is a function of the single request written. -/
def Peer : Type := String → PeerReply

/-- pyIsSpace matches Python's `str.strip` default character class on
ASCII: space, tab, newline, carriage return, vertical tab, form feed. -/
def pyIsSpace (c : Char) : Bool :=
  c == ' ' || c == '\t' || c == '\n' || c == '\r' || c == '\x0b' || c == '\x0c'

/-- pyStrip models Python's `str.strip()`: drop whitespace from both
ends. -/
def pyStrip (s : String) : String :=
  (((s.data.dropWhile pyIsSpace).reverse.dropWhile pyIsSpace).reverse).asString

/-- pyStartsWith models Python's `str.startswith`. -/
def pyStartsWith (s pre : String) : Bool :=
  pre.data.isPrefixOf s.data

/-- pyLowerChar lower-cases one ASCII character as `str.lower` does. -/
def pyLowerChar (c : Char) : Char :=
  if 65 ≤ c.toNat && c.toNat ≤ 90 then Char.ofNat (c.toNat + 32) else c

/-- pyLower models Python's `str.lower()` on ASCII text. -/
def pyLower (s : String) : String :=
  (s.data.map pyLowerChar).asString

/-- isInfixB decides whether `needle` occurs contiguously inside `l`
(Boolean version of Python's `in` on strings). -/
def isInfixB [BEq α] (needle : List α) : List α → Bool
  | [] => needle.isEmpty
  | a :: rest => needle.isPrefixOf (a :: rest) || isInfixB needle rest

/-- strContains models Python's `needle in haystack` on strings. -/
def strContains (haystack needle : String) : Bool :=
  isInfixB needle.toList haystack.toList

/-- send from the source (`HyprlandIPC.send`): write the command, read
until the peer closes, decode and strip; an `unknown`-prefixed reply
raises `HyprlandIPCError`, which the surrounding `except Exception`
clause re-wraps with the command, exactly as any transport error is
wrapped.  Returns the list of requests written (always exactly one)
together with the result. -/
def send (peer : Peer) (command : String) :
    List String × Except HyprlandIPCError String :=
  ([command],
    match peer command with
    | .transportError m =>
        .error ⟨"Failed to send IPC command \x27" ++ command ++ "\x27: " ++ m⟩
    | .closeWith bytes =>
        let decoded := pyStrip bytes
        if pyStartsWith decoded "unknown" then
          .error ⟨"Failed to send IPC command \x27" ++ command ++
            "\x27: Hyprland returned an error: " ++ decoded⟩
        else .ok decoded)

/-- send_json from the source: send with a `j/` prefix; empty response
gives the empty mapping (here: the caller-supplied `emptyVal`, since
the JSON library is external to the repository it is passed in as the
abstract `parse` function); a parse failure is wrapped naming the
command; `HyprlandIPCError` from `send` is re-raised unchanged. -/
def send_json (parse : String → Except String α) (emptyVal : α)
    (peer : Peer) (command : String) :
    List String × Except HyprlandIPCError α :=
  let r := send peer ("j/" ++ command)
  (r.1,
    match r.2 with
    | .error e => .error e
    | .ok resp =>
        if resp = "" then .ok emptyVal
        else
          match parse resp with
          | .ok v => .ok v
          | .error m =>
              .error ⟨"Invalid JSON response for command \x27" ++ command ++
                "\x27: " ++ m⟩)

/-- send_json_call is `send_json` as a method on the client state: the
peer reached depends on `socket_path`, and the client state is returned
alongside the result (the method assigns no attribute, so the state it
returns is the state it received). -/
def send_json_call (parse : String → Except String α) (emptyVal : α)
    (world : String → Peer) (st : HyprlandIPC) (command : String) :
    HyprlandIPC × (List String × Except HyprlandIPCError α) :=
  (st, send_json parse emptyVal (world st.socket_path) command)

/-- dispatch from the source: send `dispatch <command>`; a failure is
wrapped with dispatch-specific context. -/
def dispatch (peer : Peer) (command : String) :
    List String × Except HyprlandIPCError Unit :=
  let r := send peer ("dispatch " ++ command)
  (r.1,
    match r.2 with
    | .ok _ => .ok ()
    | .error e =>
        .error ⟨"Failed to dispatch \x27" ++ command ++ "\x27: " ++ e.message⟩)

/-- dispatch_many from the source: dispatch each command in order; the
first failure is wrapped with the offending command and stops the loop
(the `raise` inside the `for` exits it), so later commands are never
sent. -/
def dispatch_many (peer : Peer) : List String →
    List String × Except HyprlandIPCError Unit
  | [] => ([], .ok ())
  | cmd :: rest =>
    let r := dispatch peer cmd
    match r.2 with
    | .error e =>
        (r.1, .error ⟨"Failed to dispatch command \x27" ++ cmd ++
          "\x27: " ++ e.message⟩)
    | .ok _ =>
        let rr := dispatch_many peer rest
        (r.1 ++ rr.1, rr.2)

/-- batch from the source: join the commands with `; ` and send one
`dispatch` request; if that fails and the error message contains
`unknown` case-insensitively, fall back to `dispatch_many` on the same
sequence; any other failure propagates. -/
def batch (peer : Peer) (commands : List String) :
    List String × Except HyprlandIPCError Unit :=
  let cmd_str := String.intercalate "; " commands
  let r := send peer ("dispatch " ++ cmd_str)
  match r.2 with
  | .ok _ => (r.1, .ok ())
  | .error e =>
      if strContains (pyLower e.message) "unknown" then
        let rr := dispatch_many peer commands
        (r.1 ++ rr.1, rr.2)
      else (r.1, .error e)

/-- FsModel abstracts the filesystem operations used by `from_env`:
`Path.resolve` on the runtime directory and the `is_socket` test. -/
structure FsModel where
  resolve : String → String
  isSocket : String → Bool

/-- optTruthy is Python truthiness of an `os.getenv` result: `None`
and the empty string are falsy. -/
def optTruthy : Option String → Bool
  | none => false
  | some s => s != ""

/-- from_env from the source: check both environment values for
truthiness (collecting the names of the missing ones in order), build
`<resolved runtime dir>/hypr/<signature>/.socket.sock` and
`.socket2.sock`, require both to be sockets, and return the client. -/
def from_env (fs : FsModel) (xdg_runtime hypr_instance_sig : Option String) :
    Except HyprlandIPCError HyprlandIPC :=
  if !optTruthy xdg_runtime || !optTruthy hypr_instance_sig then
    let missing : List String :=
      (if !optTruthy xdg_runtime then ["XDG_RUNTIME_DIR"] else []) ++
      (if !optTruthy hypr_instance_sig then ["HYPRLAND_INSTANCE_SIGNATURE"] else [])
    .error ⟨"Must run under Hyprland (missing: " ++
      String.intercalate ", " missing ++ ")"⟩
  else
    let base := fs.resolve (xdg_runtime.getD "") ++ "/hypr/" ++
      (hypr_instance_sig.getD "")
    let sock1 := base ++ "/.socket.sock"
    let sock2 := base ++ "/.socket2.sock"
    if !fs.isSocket sock1 || !fs.isSocket sock2 then
      .error ⟨"Expected Hyprland socket files not found."⟩
    else
      .ok ⟨sock1, sock2⟩

/-- partitionFrom models Python's `bytes.partition(sep)`: the part
before the first occurrence of `sep`, the matched separator (empty if
absent), and the part after; with `sep` absent the whole input is the
first component. -/
def partitionFrom (sep : List Char) : List Char →
    List Char × List Char × List Char
  | [] => ([], [], [])
  | c :: rest =>
    if sep.isPrefixOf (c :: rest) then ([], sep, (c :: rest).drop sep.length)
    else
      let r := partitionFrom sep rest
      (c :: r.1, r.2.1, r.2.2)

/-- lineEvents is the per-line body of the `events` framing loop: an
empty line is skipped (`if line:`); otherwise the line is partitioned
on the first `>>` and one Event is yielded from the two outer parts
(character-level decoding always succeeds, so the `except` skip for
undecodable bytes is unreachable here). -/
def lineEvents (line : List Char) : List Event :=
  if line.isEmpty then []
  else
    let p := partitionFrom ['>', '>'] line
    [⟨p.1.asString, p.2.2.asString⟩]

/-- drainLoop is the inner `while b"\n" in buf` loop of `events`,
with explicit fuel: while a newline is present, partition the buffer
at the first newline, keep the rest as the new buffer and process the
extracted line.  Each iteration strictly shrinks the buffer, so fuel
equal to the buffer length always suffices. -/
def drainLoop : Nat → List Char → List Event × List Char
  | 0, buf => ([], buf)
  | fuel + 1, buf =>
    if ('\n') ∈ buf then
      let p := partitionFrom ['\n'] buf
      let r := drainLoop fuel p.2.2
      (lineEvents p.1 ++ r.1, r.2)
    else ([], buf)

/-- drainBuf runs the framing loop to completion on a buffer,
returning the events of its complete lines and the remaining partial
line. -/
def drainBuf (buf : List Char) : List Event × List Char :=
  drainLoop buf.length buf

/-- eventsFromChunks is the outer read loop of `events` over a
scripted sequence of `recv` results: an empty chunk is the zero-length
read of a peer close (the generator returns); a non-empty chunk is
appended to the accumulation buffer, which is then drained of complete
lines.  The returned list is the sequence of yielded events. -/
def eventsFromChunks (buf : List Char) : List (List Char) → List Event
  | [] => []
  | c :: cs =>
    if c.isEmpty then []
    else
      let r := drainBuf (buf ++ c)
      r.1 ++ eventsFromChunks r.2 cs

/-- eventsRun is `events()` started with an empty buffer over a
scripted sequence of reads. -/
def eventsRun (chunks : List (List Char)) : List Event :=
  eventsFromChunks [] chunks

/-- linesJoin rebuilds a byte stream from newline-terminated lines. -/
def linesJoin (lines : List (List Char)) : List Char :=
  (lines.map (fun l => l ++ ['\n'])).flatten

/-- eventsOfStream is the specification-side reading of the framing
contract: the whole stream is delivered in a single read and then the
peer closes, so framing is applied to the concatenated bytes at once. -/
def eventsOfStream (stream : List Char) : List Event :=
  eventsRun [stream, []]

/-! Helper lemmas about the substring test. -/

theorem isInfixB_iff [BEq α] [LawfulBEq α] (needle l : List α) :
    isInfixB needle l = true ↔ needle <:+: l := by
  induction l with
  | nil =>
    simp [isInfixB, List.isEmpty_iff]
  | cons a rest ih =>
    simp [isInfixB, List.infix_cons_iff, ih, List.isPrefixOf_iff_prefix]

theorem strContains_of_infix (haystack needle : String)
    (h : needle.data <:+: haystack.data) : strContains haystack needle = true := by
  unfold strContains
  simpa using (isInfixB_iff needle.data haystack.data).2 h

theorem strContains_of_decomp (s b : String) (x y : List Char)
    (h : s.data = x ++ b.data ++ y) : strContains s b = true := by
  apply strContains_of_infix
  rw [h]
  exact List.infix_append x b.data y

/-- C2: for every peer response, send decodes and strips the
accumulated bytes; a response whose trimmed text starts with `unknown`
makes send raise `HyprlandIPCError` with the full decoded text in the
message, and any other response is returned trimmed and otherwise
unchanged. -/
theorem C2_send_response (peer : Peer) (command bytes : String)
    (h : peer command = .closeWith bytes) :
    (pyStartsWith (pyStrip bytes) "unknown" = true →
      ∃ e, (send peer command).2 = .error e ∧
        strContains e.message (pyStrip bytes) = true) ∧
    (pyStartsWith (pyStrip bytes) "unknown" = false →
      (send peer command).2 = .ok (pyStrip bytes)) := by
  constructor
  · intro hu
    refine ⟨⟨"Failed to send IPC command \x27" ++ command ++
      "\x27: Hyprland returned an error: " ++ pyStrip bytes⟩, ?_, ?_⟩
    · simp [send, h, hu]
    · exact strContains_of_decomp _ _
        (("Failed to send IPC command \x27" ++ command ++
          "\x27: Hyprland returned an error: ").data) []
        (by simp)
  · intro hu
    simp [send, h, hu]

/-- C2 witness: a peer replying `" unknown request "` makes send fail
with the trimmed text inside the error message, and a peer replying
`"ok reply\n"` makes send return `"ok reply"`. -/
theorem C2_send_response_witness :
    (∃ e, (send (fun _ => .closeWith " unknown request ") "clients").2 = .error e ∧
      strContains e.message (pyStrip " unknown request ") = true) ∧
    (send (fun _ => .closeWith "ok reply\n") "clients").2 = .ok (pyStrip "ok reply\n") := by
  constructor
  · exact (C2_send_response (fun _ => .closeWith " unknown request ")
      "clients" " unknown request " rfl).1 (by decide)
  · exact (C2_send_response (fun _ => .closeWith "ok reply\n")
      "clients" "ok reply\n" rfl).2 (by decide)

/-- C3: send_json sends exactly `j/` followed by the command; an empty
channel response gives the empty mapping, a response the parser accepts
gives the parsed value, a parse failure gives an error naming the
command and the decode error, and channel errors propagate unchanged. -/
theorem C3_send_json (parse : String → Except String α) (emptyVal : α)
    (peer : Peer) (command : String) :
    (send_json parse emptyVal peer command).1 = ["j/" ++ command] ∧
    (∀ e, (send peer ("j/" ++ command)).2 = .error e →
      (send_json parse emptyVal peer command).2 = .error e) ∧
    (∀ resp, (send peer ("j/" ++ command)).2 = .ok resp →
      (resp = "" → (send_json parse emptyVal peer command).2 = .ok emptyVal) ∧
      (∀ v, resp ≠ "" → parse resp = .ok v →
        (send_json parse emptyVal peer command).2 = .ok v) ∧
      (∀ m, resp ≠ "" → parse resp = .error m →
        ∃ e, (send_json parse emptyVal peer command).2 = .error e ∧
          strContains e.message command = true ∧
          strContains e.message m = true)) := by
  refine ⟨rfl, ?_, ?_⟩
  · intro e he
    simp [send_json, he]
  · intro resp hr
    refine ⟨?_, ?_, ?_⟩
    · intro hempty
      simp [send_json, hr, hempty]
    · intro v hne hv
      simp [send_json, hr, hne, hv]
    · intro m hne hm
      refine ⟨⟨"Invalid JSON response for command \x27" ++ command ++
        "\x27: " ++ m⟩, ?_, ?_, ?_⟩
      · simp [send_json, hr, hne, hm]
      · exact strContains_of_decomp _ _
          ("Invalid JSON response for command \x27").data
          (("\x27: ").data ++ m.data) (by simp)
      · exact strContains_of_decomp _ _
          (("Invalid JSON response for command \x27" ++ command ++
            "\x27: ").data) [] (by simp)

/-- C3 witness: with a toy parser accepting only `"[1]"`, the three
response shapes (empty, valid, invalid) and a channel error behave as
stated at concrete inputs. -/
theorem C3_send_json_witness :
    (send_json (fun s => if s = "[1]" then .ok 1 else .error "bad") 0
      (fun _ => .closeWith "") "clients").2 = .ok 0 ∧
    (send_json (fun s => if s = "[1]" then .ok 1 else .error "bad") 0
      (fun _ => .closeWith "[1]") "clients").2 = .ok 1 ∧
    (∃ e, (send_json (fun s => if s = "[1]" then .ok 1 else .error "bad") 0
      (fun _ => .closeWith "nonsense") "clients").2 = .error e ∧
      strContains e.message "clients" = true ∧
      strContains e.message "bad" = true) ∧
    (send_json (fun s => if s = "[1]" then .ok 1 else .error "bad") 0
      (fun _ => .transportError "boom") "clients").2 =
      .error ⟨"Failed to send IPC command \x27j/clients\x27: boom"⟩ := by
  refine ⟨?_, ?_, ?_, ?_⟩
  · exact (((C3_send_json (fun s => if s = "[1]" then .ok 1 else .error "bad") 0
      (fun _ => .closeWith "") "clients").2.2 "" rfl).1 rfl)
  · exact (((C3_send_json (fun s => if s = "[1]" then .ok 1 else .error "bad") 0
      (fun _ => .closeWith "[1]") "clients").2.2 "[1]" rfl).2.1 1
      (by decide) rfl)
  · exact (((C3_send_json (fun s => if s = "[1]" then .ok 1 else .error "bad") 0
      (fun _ => .closeWith "nonsense") "clients").2.2 "nonsense"
      rfl).2.2 "bad" (by decide) rfl)
  · exact ((C3_send_json (fun s => if s = "[1]" then .ok 1 else .error "bad") 0
      (fun _ => .transportError "boom") "clients").2.1
      ⟨"Failed to send IPC command \x27j/clients\x27: boom"⟩ rfl)

theorem send_fst (peer : Peer) (command : String) :
    (send peer command).1 = [command] := rfl

theorem dispatch_fst (peer : Peer) (command : String) :
    (dispatch peer command).1 = ["dispatch " ++ command] := rfl

/-- C4: batch first sends exactly one request, `dispatch ` followed by
the commands joined with `; `; if and only if that request fails with
an error whose message contains `unknown` case-insensitively does it
fall back to dispatch_many on the same sequence in the same order; any
other failure propagates without fallback. -/
theorem C4_batch (peer : Peer) (commands : List String) :
    (∃ tr, (batch peer commands).1 =
      ("dispatch " ++ String.intercalate "; " commands) :: tr) ∧
    (∀ s, (send peer ("dispatch " ++ String.intercalate "; " commands)).2 = .ok s →
      batch peer commands =
        (["dispatch " ++ String.intercalate "; " commands], .ok ())) ∧
    (∀ e, (send peer ("dispatch " ++ String.intercalate "; " commands)).2 = .error e →
      (strContains (pyLower e.message) "unknown" = true →
        batch peer commands =
          (("dispatch " ++ String.intercalate "; " commands) ::
              (dispatch_many peer commands).1,
            (dispatch_many peer commands).2)) ∧
      (strContains (pyLower e.message) "unknown" = false →
        batch peer commands =
          (["dispatch " ++ String.intercalate "; " commands], .error e))) := by
  refine ⟨?_, ?_, ?_⟩
  · cases h : (send peer ("dispatch " ++ String.intercalate "; " commands)).2 with
    | ok s => exact ⟨[], by simp [batch, h, send_fst]⟩
    | error e =>
      cases hc : strContains (pyLower e.message) "unknown"
      · exact ⟨[], by simp [batch, h, hc, send_fst]⟩
      · exact ⟨(dispatch_many peer commands).1, by simp [batch, h, hc, send_fst]⟩
  · intro s h
    simp [batch, h, send_fst]
  · intro e h
    constructor
    · intro hc
      simp [batch, h, hc, send_fst]
    · intro hc
      simp [batch, h, hc, send_fst]

/-- C4 witness: a peer that accepts the joined request yields one
request and success; a peer that rejects exactly the joined request
with `unknown request` triggers the sequential fallback in order; a
transport failure with no `unknown` in its message propagates without
fallback. -/
theorem C4_batch_witness :
    batch (fun _ => .closeWith "ok") ["a", "b"] = (["dispatch a; b"], .ok ()) ∧
    batch (fun req => if req = "dispatch a; b" then .closeWith "unknown request"
        else .closeWith "ok") ["a", "b"] =
      (["dispatch a; b", "dispatch a", "dispatch b"], .ok ()) ∧
    batch (fun _ => .transportError "boom") ["a", "b"] =
      (["dispatch a; b"],
        .error ⟨"Failed to send IPC command \x27dispatch a; b\x27: boom"⟩) := by
  refine ⟨?_, ?_, ?_⟩
  · exact (C4_batch (fun _ => .closeWith "ok") ["a", "b"]).2.1 "ok" rfl
  · exact (((C4_batch (fun req => if req = "dispatch a; b" then
      .closeWith "unknown request" else .closeWith "ok") ["a", "b"]).2.2
      ⟨"Failed to send IPC command \x27dispatch a; b\x27: Hyprland returned an error: unknown request"⟩
      rfl).1 (by decide))
  · exact (((C4_batch (fun _ => .transportError "boom") ["a", "b"]).2.2
      ⟨"Failed to send IPC command \x27dispatch a; b\x27: boom"⟩ rfl).2 (by decide))

/-- C5: dispatch_many dispatches each command in sequence order and
stops at the first failure, propagating an error that carries the
offending command; the requests actually sent are exactly those for
the commands up to and including the failing one, so commands after it
are never sent. -/
theorem C5_dispatch_many (peer : Peer) (pre : List String) (cmd : String)
    (post : List String) (e : HyprlandIPCError)
    (hpre : ∀ c ∈ pre, (dispatch peer c).2 = .ok ())
    (hcmd : (dispatch peer cmd).2 = .error e) :
    dispatch_many peer (pre ++ cmd :: post) =
      ((pre ++ [cmd]).map (fun c => "dispatch " ++ c),
        .error ⟨"Failed to dispatch command \x27" ++ cmd ++ "\x27: " ++ e.message⟩) ∧
    strContains ("Failed to dispatch command \x27" ++ cmd ++ "\x27: " ++ e.message)
      cmd = true := by
  constructor
  · induction pre with
    | nil => simp [dispatch_many, hcmd, dispatch_fst]
    | cons c pre ih =>
      have hc := hpre c (List.mem_cons_self c pre)
      have ih2 := ih (fun d hd => hpre d (List.mem_cons_of_mem c hd))
      simp [dispatch_many, hc, ih2, dispatch_fst]
  · exact strContains_of_decomp _ _ ("Failed to dispatch command \x27").data
      (("\x27: ").data ++ e.message.data) (by simp)

/-- C5 witness: with three commands where the second is rejected, the
requests sent are exactly the first two dispatches; the third is never
sent and the error names the offending command. -/
theorem C5_dispatch_many_witness :
    dispatch_many (fun req => if req = "dispatch b" then
        .closeWith "unknown request" else .closeWith "ok") ["a", "b", "c"] =
      (["dispatch a", "dispatch b"],
        .error ⟨"Failed to dispatch command \x27b\x27: Failed to dispatch \x27b\x27: Failed to send IPC command \x27dispatch b\x27: Hyprland returned an error: unknown request"⟩) := by
  exact (C5_dispatch_many (fun req => if req = "dispatch b" then
      .closeWith "unknown request" else .closeWith "ok") ["a"] "b" ["c"]
      ⟨"Failed to dispatch \x27b\x27: Failed to send IPC command \x27dispatch b\x27: Hyprland returned an error: unknown request"⟩
      (fun c hc => by rw [List.mem_singleton.1 hc]; rfl) rfl).1

/-- C8: send_json is a read-only, deterministic function of the peer:
the client state it returns is the state it received, and a second
call on that state with the same command against the same peer returns
a structurally identical result. -/
theorem C8_send_json_readonly (parse : String → Except String α) (emptyVal : α)
    (world : String → Peer) (st : HyprlandIPC) (command : String) :
    (send_json_call parse emptyVal world st command).1 = st ∧
    (send_json_call parse emptyVal world
        (send_json_call parse emptyVal world st command).1 command).2 =
      (send_json_call parse emptyVal world st command).2 :=
  ⟨rfl, rfl⟩

/-- C6: from_env fails with the configuration error naming exactly the
absent environment values (an unset or empty value is absent) when
either is missing; with both present it fails when either computed
socket path is not a Unix socket, and otherwise returns the client
holding both resolved paths. -/
theorem C6_from_env (fs : FsModel) (xdg sig : Option String) :
    (optTruthy xdg = false ∨ optTruthy sig = false →
      ∃ msg, from_env fs xdg sig = .error ⟨msg⟩ ∧
        strContains msg "XDG_RUNTIME_DIR" = !optTruthy xdg ∧
        strContains msg "HYPRLAND_INSTANCE_SIGNATURE" = !optTruthy sig) ∧
    (∀ x s, x ≠ "" → s ≠ "" →
      ((fs.isSocket (fs.resolve x ++ "/hypr/" ++ s ++ "/.socket.sock") = false ∨
        fs.isSocket (fs.resolve x ++ "/hypr/" ++ s ++ "/.socket2.sock") = false →
        from_env fs (some x) (some s) =
          .error ⟨"Expected Hyprland socket files not found."⟩) ∧
       (fs.isSocket (fs.resolve x ++ "/hypr/" ++ s ++ "/.socket.sock") = true →
        fs.isSocket (fs.resolve x ++ "/hypr/" ++ s ++ "/.socket2.sock") = true →
        from_env fs (some x) (some s) =
          .ok ⟨fs.resolve x ++ "/hypr/" ++ s ++ "/.socket.sock",
               fs.resolve x ++ "/hypr/" ++ s ++ "/.socket2.sock"⟩))) := by
  constructor
  · intro h
    cases hx : optTruthy xdg <;> cases hy : optTruthy sig
    · exact ⟨"Must run under Hyprland (missing: XDG_RUNTIME_DIR, HYPRLAND_INSTANCE_SIGNATURE)",
        by simp [from_env, hx, hy]; rfl, by decide, by decide⟩
    · exact ⟨"Must run under Hyprland (missing: XDG_RUNTIME_DIR)",
        by simp [from_env, hx, hy]; rfl, by decide, by decide⟩
    · exact ⟨"Must run under Hyprland (missing: HYPRLAND_INSTANCE_SIGNATURE)",
        by simp [from_env, hx, hy]; rfl, by decide, by decide⟩
    · rw [hx, hy] at h
      simp at h
  · intro x s hx hs
    have htx : optTruthy (some x) = true := by
      simp [optTruthy, hx]
    have hts : optTruthy (some s) = true := by
      simp [optTruthy, hs]
    constructor
    · intro hsock
      rcases hsock with h1 | h1 <;> simp [from_env, htx, hts, h1]
    · intro h1 h2
      simp [from_env, htx, hts, h1, h2]

/-- C6 witness: with the runtime directory unset the error names only
that value; with both present but no sockets on disk construction
fails; with both present and both sockets existing it succeeds with
the two computed paths. -/
theorem C6_from_env_witness :
    (∃ msg, from_env ⟨id, fun _ => true⟩ none (some "sig1") = .error ⟨msg⟩ ∧
      strContains msg "XDG_RUNTIME_DIR" = true ∧
      strContains msg "HYPRLAND_INSTANCE_SIGNATURE" = false) ∧
    from_env ⟨id, fun _ => false⟩ (some "/run/user/1000") (some "sig1") =
      .error ⟨"Expected Hyprland socket files not found."⟩ ∧
    from_env ⟨id, fun _ => true⟩ (some "/run/user/1000") (some "sig1") =
      .ok ⟨"/run/user/1000/hypr/sig1/.socket.sock",
           "/run/user/1000/hypr/sig1/.socket2.sock"⟩ := by
  refine ⟨?_, ?_, ?_⟩
  · exact (C6_from_env ⟨id, fun _ => true⟩ none (some "sig1")).1 (Or.inl rfl)
  · exact (((C6_from_env ⟨id, fun _ => false⟩ (some "/run/user/1000")
      (some "sig1")).2 "/run/user/1000" "sig1" (by decide) (by decide)).1
      (Or.inl rfl))
  · exact (((C6_from_env ⟨id, fun _ => true⟩ (some "/run/user/1000")
      (some "sig1")).2 "/run/user/1000" "sig1" (by decide) (by decide)).2
      rfl rfl)

/-! Helper lemmas about the framing loop. -/

theorem nl_decomp (buf : List Char) (h : ('\n') ∈ buf) :
    ∃ line after, buf = line ++ '\n' :: after ∧ ('\n') ∉ line := by
  induction buf with
  | nil => cases h
  | cons c rest ih =>
    by_cases hc : c = '\n'
    · exact ⟨[], rest, by rw [hc]; rfl, by simp⟩
    · have h' : ('\n') ∈ rest := by
        rcases List.mem_cons.1 h with h1 | h1
        · exact absurd h1.symm hc
        · exact h1
      rcases ih h' with ⟨line, after, heq, hnl⟩
      refine ⟨c :: line, after, by rw [heq]; rfl, ?_⟩
      intro hm
      rcases List.mem_cons.1 hm with h1 | h1
      · exact hc h1.symm
      · exact hnl h1

theorem partition_nl (line after : List Char) (hnl : ('\n') ∉ line) :
    partitionFrom ['\n'] (line ++ '\n' :: after) = (line, ['\n'], after) := by
  induction line with
  | nil => simp [partitionFrom, List.isPrefixOf]
  | cons c rest ih =>
    have hc : ('\n' == c) = false := by
      have : ¬c = '\n' := fun h => hnl (by simp [h])
      simp [beq_iff_eq]
      exact fun h => this h.symm
    have ih2 := ih (fun h => hnl (List.mem_cons_of_mem c h))
    simp [partitionFrom, List.isPrefixOf, hc, ih2]

theorem drainLoop_no_nl (f : Nat) (buf : List Char) (h : ('\n') ∉ buf) :
    drainLoop f buf = ([], buf) := by
  cases f <;> simp [drainLoop, h]

theorem drainLoop_step (f : Nat) (line after : List Char) (hnl : ('\n') ∉ line) :
    drainLoop (f + 1) (line ++ '\n' :: after) =
      (lineEvents line ++ (drainLoop f after).1, (drainLoop f after).2) := by
  have hmem : ('\n') ∈ line ++ '\n' :: after := by simp
  simp [drainLoop, hmem, partition_nl line after hnl]

theorem drainLoop_congr (f : Nat) (buf : List Char) (h : buf.length ≤ f) :
    drainLoop f buf = drainBuf buf := by
  induction f using Nat.strong_induction_on generalizing buf with
  | _ f ih =>
    by_cases hnl : ('\n') ∈ buf
    · rcases nl_decomp buf hnl with ⟨line, after, heq, hline⟩
      subst heq
      have hlen : (line ++ '\n' :: after).length = (line.length + after.length) + 1 := by
        simp only [List.length_append, List.length_cons]
        omega
      rw [hlen] at h
      cases f with
      | zero => omega
      | succ g =>
        rw [drainLoop_step g line after hline]
        show _ = drainLoop (line ++ '\n' :: after).length (line ++ '\n' :: after)
        rw [hlen, drainLoop_step (line.length + after.length) line after hline]
        have h1 : drainLoop g after = drainBuf after :=
          ih g (by omega) after (by omega)
        have h2 : drainLoop (line.length + after.length) after = drainBuf after :=
          ih (line.length + after.length) (by omega) after (by omega)
        rw [h1, h2]
    · rw [drainLoop_no_nl f buf hnl]
      show _ = drainLoop buf.length buf
      rw [drainLoop_no_nl buf.length buf hnl]

theorem drainBuf_no_nl (t : List Char) (h : ('\n') ∉ t) : drainBuf t = ([], t) :=
  drainLoop_no_nl t.length t h

theorem drainBuf_cons_line (line after : List Char) (hnl : ('\n') ∉ line) :
    drainBuf (line ++ '\n' :: after) =
      (lineEvents line ++ (drainBuf after).1, (drainBuf after).2) := by
  show drainLoop (line ++ '\n' :: after).length (line ++ '\n' :: after) = _
  have h1 : (line ++ '\n' :: after).length = (line.length + after.length) + 1 := by
    simp only [List.length_append, List.length_cons]
    omega
  rw [h1, drainLoop_step (line.length + after.length) line after hnl,
    drainLoop_congr (line.length + after.length) after (by omega)]

theorem linesJoin_cons (l : List Char) (ls : List (List Char)) :
    linesJoin (l :: ls) = l ++ '\n' :: linesJoin ls := by
  simp [linesJoin]

theorem drainBuf_split (lines : List (List Char)) (t : List Char)
    (hl : ∀ l ∈ lines, ('\n') ∉ l) :
    drainBuf (linesJoin lines ++ t) =
      (lines.flatMap lineEvents ++ (drainBuf t).1, (drainBuf t).2) := by
  induction lines with
  | nil => simp [linesJoin]
  | cons l ls ih =>
    have hlnl : ('\n') ∉ l := hl l (List.mem_cons_self l ls)
    have ih2 := ih (fun x hx => hl x (List.mem_cons_of_mem l hx))
    rw [linesJoin_cons]
    have hbuf : (l ++ '\n' :: linesJoin ls) ++ t = l ++ '\n' :: (linesJoin ls ++ t) := by
      simp
    rw [hbuf, drainBuf_cons_line l (linesJoin ls ++ t) hlnl, ih2]
    simp

theorem drainBuf_full (lines : List (List Char)) (rest : List Char)
    (hl : ∀ l ∈ lines, ('\n') ∉ l) (hr : ('\n') ∉ rest) :
    drainBuf (linesJoin lines ++ rest) = (lines.flatMap lineEvents, rest) := by
  rw [drainBuf_split lines rest hl, drainBuf_no_nl rest hr]
  simp

theorem buf_decomp (buf : List Char) :
    ∃ lines rest, buf = linesJoin lines ++ rest ∧
      (∀ l ∈ lines, ('\n') ∉ l) ∧ ('\n') ∉ rest := by
  induction buf with
  | nil => exact ⟨[], [], rfl, by simp, by simp⟩
  | cons c tl ih =>
    rcases ih with ⟨ls, r, heq, hls, hr⟩
    by_cases hc : c = '\n'
    · refine ⟨[] :: ls, r, ?_, ?_, hr⟩
      · rw [heq, hc, linesJoin_cons]
        rfl
      · intro l hl
        rcases List.mem_cons.1 hl with h1 | h1
        · rw [h1]; simp
        · exact hls l h1
    · cases ls with
      | nil =>
        refine ⟨[], c :: r, ?_, by simp, ?_⟩
        · rw [heq]
          simp [linesJoin]
        · intro hm
          rcases List.mem_cons.1 hm with h1 | h1
          · exact hc h1.symm
          · exact hr h1
      | cons l ls =>
        refine ⟨(c :: l) :: ls, r, ?_, ?_, hr⟩
        · rw [heq, linesJoin_cons, linesJoin_cons]
          rfl
        · intro x hx
          rcases List.mem_cons.1 hx with h1 | h1
          · rw [h1]
            intro hm
            rcases List.mem_cons.1 hm with h2 | h2
            · exact hc h2.symm
            · exact hls l (List.mem_cons_self l ls) h2
          · exact hls x (List.mem_cons_of_mem l h1)

theorem eventsFromChunks_cons (buf c : List Char) (cs : List (List Char))
    (hc : c ≠ []) :
    eventsFromChunks buf (c :: cs) =
      (drainBuf (buf ++ c)).1 ++ eventsFromChunks (drainBuf (buf ++ c)).2 cs := by
  cases c with
  | nil => exact absurd rfl hc
  | cons a as => simp [eventsFromChunks]

theorem eventsFromChunks_close (buf : List Char) (pre rest : List (List Char)) :
    eventsFromChunks buf (pre ++ [] :: rest) = eventsFromChunks buf pre := by
  induction pre generalizing buf with
  | nil => simp [eventsFromChunks]
  | cons c cs ih =>
    by_cases hc : c = []
    · subst hc
      simp [eventsFromChunks]
    · rw [List.cons_append, eventsFromChunks_cons buf c (cs ++ [] :: rest) hc,
        eventsFromChunks_cons buf c cs hc, ih]

theorem eventsFromChunks_single_close (buf s : List Char) :
    eventsFromChunks buf [s, []] = eventsFromChunks buf [s] := by
  cases s with
  | nil => rfl
  | cons a as => simp [eventsFromChunks]

theorem eventsFromChunks_join : ∀ (chunks : List (List Char)) (buf : List Char),
    (∀ c ∈ chunks, c ≠ []) → ('\n') ∉ buf →
    eventsFromChunks buf chunks = (drainBuf (buf ++ chunks.flatten)).1 := by
  intro chunks
  induction chunks with
  | nil =>
    intro buf hne hbuf
    simp [eventsFromChunks, drainBuf_no_nl buf hbuf]
  | cons c cs ih =>
    intro buf hne hbuf
    have hc : c ≠ [] := hne c (List.mem_cons_self c cs)
    rw [eventsFromChunks_cons buf c cs hc]
    rcases buf_decomp (buf ++ c) with ⟨ls, r, heq, hls, hr⟩
    have hfull : drainBuf (buf ++ c) = (ls.flatMap lineEvents, r) := by
      rw [heq]
      exact drainBuf_full ls r hls hr
    rw [hfull]
    have h2 : eventsFromChunks r cs = (drainBuf (r ++ cs.flatten)).1 :=
      ih r (fun d hd => hne d (List.mem_cons_of_mem c hd)) hr
    have h3 : buf ++ (c :: cs).flatten = linesJoin ls ++ (r ++ cs.flatten) := by
      have : buf ++ (c :: cs).flatten = (buf ++ c) ++ cs.flatten := by
        simp
      rw [this, heq]
      simp
    rw [h3, drainBuf_split ls (r ++ cs.flatten) hls]
    simp [h2]

theorem eventsRun_lines (lines : List (List Char))
    (hl : ∀ l ∈ lines, ('\n') ∉ l) :
    eventsRun [linesJoin lines, []] = lines.flatMap lineEvents := by
  cases hlines : lines with
  | nil => rfl
  | cons l ls =>
    subst hlines
    show eventsFromChunks [] [linesJoin (l :: ls), []] = _
    rw [eventsFromChunks_single_close,
      eventsFromChunks_cons [] (linesJoin (l :: ls)) [] (by rw [linesJoin_cons]; simp)]
    have h1 : drainBuf ([] ++ linesJoin (l :: ls)) = ((l :: ls).flatMap lineEvents, []) := by
      have := drainBuf_full (l :: ls) [] hl (by simp)
      simpa using this
    rw [h1]
    simp [eventsFromChunks]

/-! Helper lemmas about the per-line split on the first `>>`. -/

theorem partitionFrom_no_occ (sep l : List Char)
    (h : isInfixB sep l = false) : partitionFrom sep l = (l, [], []) := by
  induction l with
  | nil => simp [partitionFrom]
  | cons a rest ih =>
    rw [isInfixB, Bool.or_eq_false_iff] at h
    simp [partitionFrom, h.1, ih h.2]

theorem partitionFrom_first_occ (name payload : List Char)
    (h : isInfixB ['>', '>'] (name ++ ['>']) = false) :
    partitionFrom ['>', '>'] (name ++ '>' :: '>' :: payload) =
      (name, ['>', '>'], payload) := by
  induction name with
  | nil => simp [partitionFrom, List.isPrefixOf]
  | cons c rest ih =>
    rw [List.cons_append, isInfixB, Bool.or_eq_false_iff] at h
    obtain ⟨h1, h2⟩ := h
    have hpre : (['>', '>'].isPrefixOf (c :: (rest ++ '>' :: '>' :: payload))) = false := by
      cases rest with
      | nil =>
        have hc : ('>' == c) = false := by
          by_contra hcc
          rw [Bool.not_eq_false] at hcc
          simp [List.isPrefixOf, hcc] at h1
        simp [List.isPrefixOf, hc]
      | cons d t =>
        by_cases hc : ('>' == c) = true
        · have hd : ('>' == d) = false := by
            by_contra hdd
            rw [Bool.not_eq_false] at hdd
            simp [List.isPrefixOf, hc, hdd] at h1
          simp [List.isPrefixOf, hc, hd]
        · have hc' : ('>' == c) = false := by
            revert hc
            cases ('>' == c) <;> simp
          simp [List.isPrefixOf, hc']
    simp [partitionFrom, hpre, ih h2]

theorem lineEvents_no_sep (l : List Char) (hne : l ≠ [])
    (h : isInfixB ['>', '>'] l = false) :
    lineEvents l = [⟨l.asString, ""⟩] := by
  have hie : l.isEmpty = false := by
    cases l with
    | nil => exact absurd rfl hne
    | cons a as => rfl
  simp [lineEvents, hie, partitionFrom_no_occ ['>', '>'] l h]
  rfl

theorem lineEvents_sep (name payload : List Char)
    (h : isInfixB ['>', '>'] (name ++ ['>']) = false) :
    lineEvents (name ++ '>' :: '>' :: payload) = [⟨name.asString, payload.asString⟩] := by
  have hie : (name ++ '>' :: '>' :: payload).isEmpty = false := by
    cases name <;> rfl
  simp [lineEvents, hie, partitionFrom_first_occ name payload h]

/-- C1 counterexample: the stream `foo>>bar\nbaz\nqux>>zip\n` does not
yield only the two events (foo, bar) and (qux, zip): the separator-less
line `baz` is not skipped. -/
theorem C1_events_counterexample :
    eventsRun ["foo>>bar\nbaz\nqux>>zip\n".data, []] ≠
      [⟨"foo", "bar"⟩, ⟨"qux", "zip"⟩] := by
  decide

/-- C1 (amended): each newline-terminated line yields its events
independently; a line containing `>>` yields exactly one Event named by
the segment before the first `>>` with everything after it as payload;
but a non-empty line with no `>>` is not skipped: it yields exactly one
Event whose name is the whole line and whose payload is empty (Python's
`partition` returns the whole string as the head when the separator is
absent, and the yield is unconditional). -/
theorem C1_events_framing (lines : List (List Char))
    (hl : ∀ l ∈ lines, ('\n') ∉ l) :
    eventsRun [linesJoin lines, []] = lines.flatMap lineEvents ∧
    (∀ l : List Char, l ≠ [] → isInfixB ['>', '>'] l = false →
      lineEvents l = [⟨l.asString, ""⟩]) ∧
    (∀ name payload : List Char, isInfixB ['>', '>'] (name ++ ['>']) = false →
      lineEvents (name ++ '>' :: '>' :: payload) =
        [⟨name.asString, payload.asString⟩]) :=
  ⟨eventsRun_lines lines hl,
   fun l hne h => lineEvents_no_sep l hne h,
   fun name payload h => lineEvents_sep name payload h⟩

/-- C1 witness: on the concrete stream the three lines yield three
events, including (baz, empty) for the separator-less line. -/
theorem C1_events_framing_witness :
    eventsRun [linesJoin ["foo>>bar".data, "baz".data, "qux>>zip".data], []] =
      [⟨"foo", "bar"⟩, ⟨"baz", ""⟩, ⟨"qux", "zip"⟩] ∧
    lineEvents "baz".data = [⟨"baz", ""⟩] ∧
    lineEvents "qux>>zip".data = [⟨"qux", "zip"⟩] := by
  refine ⟨?_, ?_, ?_⟩
  · exact ((C1_events_framing ["foo>>bar".data, "baz".data, "qux>>zip".data]
      (by decide)).1).trans (by decide)
  · exact (C1_events_framing [] (by simp)).2.1 "baz".data (by decide) (by decide)
  · exact (C1_events_framing [] (by simp)).2.2 "qux".data "zip".data (by decide)

/-- C7: a zero-length read (peer close) ends the event sequence
cleanly: nothing is yielded from the close onward, and the chunks
scripted after the close never influence the result (they are never
read). -/
theorem C7_close_clean (buf : List Char) (pre rest : List (List Char)) :
    eventsFromChunks buf ([] :: rest) = [] ∧
    eventsFromChunks buf (pre ++ [] :: rest) = eventsFromChunks buf pre :=
  ⟨rfl, eventsFromChunks_close buf pre rest⟩

/-- C9: framing depends only on the concatenation of the received
bytes: delivering a stream in any partition into non-empty chunks
followed by a peer close yields the same events as delivering the whole
stream in one read. -/
theorem C9_chunk_equiv (chunks : List (List Char))
    (hne : ∀ c ∈ chunks, c ≠ []) :
    eventsRun (chunks ++ [[]]) = eventsOfStream chunks.flatten := by
  by_cases hs : chunks.flatten = []
  · have hchunks : chunks = [] := by
      cases hcs : chunks with
      | nil => rfl
      | cons c cs =>
        exfalso
        apply hne c (by rw [hcs]; exact List.mem_cons_self c cs)
        rw [hcs] at hs
        exact List.flatten_eq_nil_iff.1 hs c (List.mem_cons_self c cs)
    subst hchunks
    rfl
  · show eventsFromChunks [] (chunks ++ [[]]) = eventsFromChunks [] [chunks.flatten, []]
    rw [eventsFromChunks_close [] chunks [], eventsFromChunks_single_close,
      eventsFromChunks_join chunks [] hne (by simp),
      eventsFromChunks_join [chunks.flatten] []
        (by intro c hc; rw [List.mem_singleton.1 hc]; exact hs) (by simp)]
    simp

/-- C9 witness: a split in the middle of the first line yields the same
events as the whole stream at once. -/
theorem C9_chunk_equiv_witness :
    eventsRun (["foo>>b".data, "ar\nbaz\nqux>>zip\n".data] ++ [[]]) =
      eventsOfStream (["foo>>b".data, "ar\nbaz\nqux>>zip\n".data].flatten) ∧
    eventsOfStream (["foo>>b".data, "ar\nbaz\nqux>>zip\n".data].flatten) =
      [⟨"foo", "bar"⟩, ⟨"baz", ""⟩, ⟨"qux", "zip"⟩] :=
  ⟨C9_chunk_equiv ["foo>>b".data, "ar\nbaz\nqux>>zip\n".data] (by decide),
   by decide⟩

/-- C10: a zero-length line produces no Event: the per-line body yields
nothing for an empty line, and a stream with an empty line inserted
yields exactly the events of the stream without it. -/
theorem C10_empty_line (pre post : List (List Char))
    (hpre : ∀ l ∈ pre, ('\n') ∉ l) (hpost : ∀ l ∈ post, ('\n') ∉ l) :
    lineEvents [] = [] ∧
    eventsRun [linesJoin (pre ++ [[]] ++ post), []] =
      eventsRun [linesJoin (pre ++ post), []] := by
  constructor
  · rfl
  · have hmid : ∀ l ∈ pre ++ [[]] ++ post, ('\n') ∉ l := by
      intro l hl
      rcases List.mem_append.1 hl with h | h
      · rcases List.mem_append.1 h with h2 | h2
        · exact hpre l h2
        · rw [List.mem_singleton.1 h2]
          simp
      · exact hpost l h
    have hboth : ∀ l ∈ pre ++ post, ('\n') ∉ l := by
      intro l hl
      rcases List.mem_append.1 hl with h | h
      · exact hpre l h
      · exact hpost l h
    rw [eventsRun_lines (pre ++ [[]] ++ post) hmid, eventsRun_lines (pre ++ post) hboth]
    simp [lineEvents]

/-- C10 witness: inserting an empty line between two event lines
changes nothing, and the empty line itself yields no event. -/
theorem C10_empty_line_witness :
    lineEvents [] = [] ∧
    eventsRun [linesJoin (["a>>1".data] ++ [[]] ++ ["b>>2".data]), []] =
      eventsRun [linesJoin (["a>>1".data] ++ ["b>>2".data]), []] := by
  exact C10_empty_line ["a>>1".data] ["b>>2".data] (by decide) (by decide)

end Hyprland
